import Mathlib

/-!
Verification of the splayground hub-link protocol code.

Shallow embedding conventions:
* byte/character strings are `List Char`;
* each JavaScript / MicroPython function is translated into a Lean
  function of the same name; serial reads are modelled by passing the
  sequence of chunk strings that the reads return (in order) as an
  explicit argument, with wall-clock timing abstracted away (a read that
  times out returns the empty chunk, and an exhausted chunk list means
  the deadline passed with no further data);
* exceptions are modelled with `Except`/`Option`.
-/

/-! ## String-search utilities
`findSub pat s` is the index of the first occurrence of `pat` in `s`
(Python `s.index(pat)` / `pat in s`, JS `s.includes(pat)`). -/

def findSub (pat : List Char) : List Char → Option Nat
  | [] => if pat.isEmpty then some 0 else none
  | c :: rest =>
    if pat.isPrefixOf (c :: rest) then some 0
    else (findSub pat rest).map (· + 1)

def containsSub (s pat : List Char) : Bool :=
  (findSub pat s).isSome

/-- Python `s.index(pat, start)`: first occurrence at position `≥ start`. -/
def findSubFrom (pat : List Char) (start : Nat) (s : List Char) : Option Nat :=
  (findSub pat (s.drop start)).map (· + start)

/-- Python `int(s)` restricted to plain decimal digit strings (the only
shape produced by the framing header); any other string raises
`ValueError`, modelled as `none`. -/
def parseDecimal (s : List Char) : Option Nat :=
  if !s.isEmpty && s.all (·.isDigit) then
    some (s.foldl (fun a c => a * 10 + (c.toNat - 48)) 0)
  else none

/-! ## SerialUploader (webapp/js/utils/serialUploader.js) -/

def okMarker : List Char := ['O', 'K']

def arrowMarker : List Char := ['>', '>', '>']

def rawReplMarker : List Char := "raw REPL".data

/-- Loop body of `SerialUploader.waitForPrompt`: accumulate each chunk
into `buffer`; return `true` when the buffer contains `expectedPrompt`,
or (the hard-coded shortcut) when it contains `"OK"` or `">>>"`; return
`false` when the chunk list (the reads completed before the timeout) is
exhausted. -/
def waitForPromptGo (expectedPrompt : List Char) (buffer : List Char) :
    List (List Char) → Bool
  | [] => false
  | c :: cs =>
    if containsSub (buffer ++ c) expectedPrompt then true
    else if containsSub (buffer ++ c) okMarker || containsSub (buffer ++ c) arrowMarker then
      true
    else waitForPromptGo expectedPrompt (buffer ++ c) cs

/-- `SerialUploader.waitForPrompt(expectedPrompt, timeout)`. -/
def waitForPrompt (expectedPrompt : List Char) (chunks : List (List Char)) : Bool :=
  waitForPromptGo expectedPrompt [] chunks

/-- `SerialUploader.enterRawRepl()`: sends three CTRL-C (writes, no reads),
drains five reads whose contents are logged and discarded, sends CTRL-A,
then waits for the `"raw REPL"` prompt.  Whether or not the prompt was
seen, the function only logs (`"May not have entered raw REPL properly
... continuing"`) and ends with `return true` on every path. -/
def enterRawRepl (chunks : List (List Char)) : Bool :=
  let afterDrain := chunks.drop 5
  let success := waitForPrompt rawReplMarker afterDrain
  -- `if success`: one further drain read, result discarded; `else`: warning only.
  if success then true else true

/-- `SerialUploader.executeRawCommand(code)` response handling: after the
CTRL-D execute, the captured response text is scanned; a `"Traceback"` or
`"Error:"` substring raises (`.error`), otherwise the response is
returned. -/
def executeRawCommand (response : List Char) : Except (List Char) (List Char) :=
  if containsSub response ("Traceback".data) || containsSub response ("Error:".data) then
    .error response
  else
    .ok response

/-- `SerialUploader.ensureDirectory(dirPath)`: empty, `"/"` and `"."`
paths return immediately (no device interaction, result `ok false`);
otherwise the mkdir snippet is executed via `executeRawCommand` (whose
captured response text is the `response` argument) inside a
`try/catch` that swallows every error.  The returned `Bool` records
whether the device was interacted with. -/
def ensureDirectory (dirPath : List Char) (response : List Char) :
    Except (List Char) Bool :=
  if dirPath = [] ∨ dirPath = ['/'] ∨ dirPath = ['.'] then
    .ok false
  else
    match executeRawCommand response with
    | .ok _ => .ok true
    | .error _ => .ok true

/-- JS `s.replace(/p/g, rep)` for a single-character pattern:
left-to-right replacement of every occurrence of the character `p`. -/
def replaceAllChar (p : Char) (rep : List Char) : List Char → List Char
  | [] => []
  | c :: rest =>
    if c = p then rep ++ replaceAllChar p rep rest
    else c :: replaceAllChar p rep rest

/-- JS `s.replace(/ppp/g, rep)` for a three-fold single-character pattern
(`'''`): left-to-right, non-overlapping replacement of every
occurrence of `p, p, p`. -/
def replaceAllTriple (p : Char) (rep : List Char) : List Char → List Char
  | a :: b :: c :: rest =>
    if a = p ∧ b = p ∧ c = p then rep ++ replaceAllTriple p rep rest
    else a :: replaceAllTriple p rep (b :: c :: rest)
  | s => s

/-- The escaping in `SerialUploader.uploadFile`:
`content.replace(/\\/g, '\\\\').replace(/'''/g, "'''")` — backslashes are
doubled, and the delimiter replacement substitutes `'''` for `'''`
verbatim (the replacement string in the JS source is identical to the
pattern). -/
def escapeContent (content : List Char) : List Char :=
  replaceAllTriple '\'' ['\'', '\'', '\'']
    (replaceAllChar '\\' ['\\', '\\'] content)

/-- Decoding of one Python backslash escape inside a string literal
(only `\\` and `\'` are produced by `escapeContent`; Python keeps other
unrecognized escapes verbatim). -/
def pyEscDecode (c : Char) : List Char :=
  if c = '\\' then ['\\']
  else if c = '\'' then ['\'']
  else ['\\', c]

/-- How the MicroPython parser on the device reads the body of a
`'''`-quoted string literal: characters accumulate into the value, a
backslash escapes the next character, and the first unescaped `'''`
terminates the literal, returning the value and the unconsumed rest.
`none` = the literal never terminates (SyntaxError). -/
def pyTripleScan : List Char → Option (List Char × List Char)
  | '\\' :: c :: rest =>
    (pyTripleScan rest).map (fun vr => (pyEscDecode c ++ vr.1, vr.2))
  | '\'' :: '\'' :: '\'' :: rest => some ([], rest)
  | c :: rest => (pyTripleScan rest).map (fun vr => (c :: vr.1, vr.2))
  | [] => none

/-- The bytes stored on the device by `uploadFile`'s remote write
`f.write('''<escapedContent>''')`: the escaped content followed by the
closing delimiter is parsed as a triple-quoted literal; the write stores
the parsed value only if the literal consumes the whole embedded text
(any leftover means the literal terminated early and the remaining
characters make the generated line a SyntaxError: nothing well-formed is
stored). -/
def storedContent (content : List Char) : Option (List Char) :=
  match pyTripleScan (escapeContent content ++ ['\'', '\'', '\'']) with
  | some (v, []) => some v
  | some _ => none
  | none => none

/-! ## Theorems about SerialUploader -/

theorem waitForPromptGo_false_preserves (expectedPrompt : List Char) :
    ∀ (cs : List (List Char)) (b : List Char),
      containsSub b okMarker = false → containsSub b arrowMarker = false →
      waitForPromptGo expectedPrompt b cs = false →
      containsSub (b ++ cs.flatten) okMarker = false ∧
        containsSub (b ++ cs.flatten) arrowMarker = false := by
  intro cs
  induction cs with
  | nil =>
    intro b hok harr _
    simpa using ⟨hok, harr⟩
  | cons c cs ih =>
    intro b hok harr hgo
    rw [waitForPromptGo] at hgo
    by_cases h1 : containsSub (b ++ c) expectedPrompt
    · simp [h1] at hgo
    · simp only [h1, if_false] at hgo
      by_cases h2 : (containsSub (b ++ c) okMarker || containsSub (b ++ c) arrowMarker) = true
      · simp [h2] at hgo
      · simp only [h2, if_false] at hgo
        simp only [Bool.or_eq_true, not_or, Bool.not_eq_true] at h2
        have := ih (b ++ c) h2.1 h2.2 hgo
        simpa [List.flatten, List.append_assoc] using this

/-- C9: `waitForPrompt` returns `true` for *every* `expectedPrompt` as
soon as the accumulated buffer contains `"OK"` or `">>>"`, so a wait for
the raw-REPL marker can report success although that marker never
appears. -/
theorem waitForPrompt_ok_shortcut (expectedPrompt : List Char)
    (chunks : List (List Char))
    (h : containsSub chunks.flatten okMarker = true ∨
         containsSub chunks.flatten arrowMarker = true) :
    waitForPrompt expectedPrompt chunks = true := by
  by_contra hfalse
  rw [Bool.not_eq_true] at hfalse
  have hinit1 : containsSub ([] : List Char) okMarker = false := by decide
  have hinit2 : containsSub ([] : List Char) arrowMarker = false := by decide
  have := waitForPromptGo_false_preserves expectedPrompt chunks [] hinit1 hinit2 hfalse
  simp only [List.nil_append] at this
  rcases h with h | h
  · rw [this.1] at h; exact Bool.false_ne_true h
  · rw [this.2] at h; exact Bool.false_ne_true h

theorem waitForPrompt_ok_shortcut_witness :
    waitForPrompt rawReplMarker [['O', 'K']] = true ∧
      containsSub (List.flatten [['O', 'K']]) rawReplMarker = false :=
  ⟨waitForPrompt_ok_shortcut rawReplMarker [['O', 'K']] (Or.inl (by decide)),
   by decide⟩

/-- C1: when the raw-mode marker is never observed (all drain reads and
all prompt-wait reads time out except one noise chunk without any
marker), `enterRawRepl` nevertheless returns `true` — success — so the
caller proceeds as if raw mode were active; no error of any kind is
raised and the internal prompt wait did report failure. -/
theorem enterRawRepl_unconfirmed_still_succeeds :
    enterRawRepl (List.replicate 5 [] ++ [['x']]) = true ∧
      waitForPrompt rawReplMarker [['x']] = false := by
  constructor
  · rfl
  · decide

/-- C10: `ensureDirectory` never raises: for every path and every
captured execution response — including a Python traceback — the result
is `.ok`; the trivial paths `""`, `"/"`, `"."` return without device
interaction (`ok false`), and every other path yields `ok true` (any
error from the mkdir snippet is caught and treated as the directory
being ready). -/
theorem ensureDirectory_never_raises (dirPath response : List Char) :
    (ensureDirectory dirPath response).isOk = true ∧
      ((dirPath = [] ∨ dirPath = ['/'] ∨ dirPath = ['.']) →
        ensureDirectory dirPath response = .ok false) ∧
      (¬ (dirPath = [] ∨ dirPath = ['/'] ∨ dirPath = ['.']) →
        ensureDirectory dirPath response = .ok true) := by
  unfold ensureDirectory
  by_cases h : dirPath = [] ∨ dirPath = ['/'] ∨ dirPath = ['.']
  · simp [h, Except.isOk, Except.toBool]
  · unfold executeRawCommand
    by_cases herr : (containsSub response ("Traceback".data) ||
        containsSub response ("Error:".data)) = true
    · simp [h, herr, Except.isOk, Except.toBool]
    · simp [h, herr, Except.isOk, Except.toBool]

theorem ensureDirectory_never_raises_witness :
    ensureDirectory ("lib".data) ("Traceback (most recent call last):".data) =
      .ok true :=
  (ensureDirectory_never_raises ("lib".data)
    ("Traceback (most recent call last):".data)).2.2 (by decide)

/-- C7: the `uploadFile` escaping does not protect the `'''` delimiter
(the JS replacement rewrites `'''` to itself), so for a content
containing the delimiter the escaped text still contains it, the
embedded literal terminates early, and the remote write does not
reproduce the original bytes — the round trip fails. -/
theorem uploadFile_escape_not_roundtrip :
    escapeContent ("a'''b".data) = "a'''b".data ∧
      storedContent ("a'''b".data) = none ∧
      storedContent ("a'''b".data) ≠ some ("a'''b".data) := by
  refine ⟨by decide, by decide, ?_⟩
  intro h
  simp [show storedContent ("a'''b".data) = none by decide] at h

/-! ## MessageFramer (BLE_PROTOCOL_V1.md, `on_ble_data`)
State machine reassembling `MSG:<decimal-length>|<payload>` frames from
BLE notification fragments. -/

inductive FrameSt
  | waitingHeader
  | receivingPayload
deriving DecidableEq

structure FramerState where
  frameState : FrameSt
  expectedPayloadLength : Nat
  payloadBuffer : List Char
  frameBuffer : List Char
deriving DecidableEq

def initFramer : FramerState := ⟨.waitingHeader, 0, [], []⟩

def msgHeaderTag : List Char := ['M', 'S', 'G', ':']

/-- `on_ble_data(data)`: in `waiting_header`, accumulate into
`_frame_buffer`; once both `"MSG:"` and `"|"` occur, parse the decimal
length between them, move the bytes after `"|"` into `_payload_buffer`
and switch to `receiving_payload`.  In `receiving_payload`, accumulate
into `_payload_buffer`; once at least `_expected_payload_length` bytes
are present, hand exactly that many bytes to
`process_complete_message` (the second component of the result) and
reset both buffers for the next header.  `none` models a Python
exception escaping the handler (`int()` or `.index()` raising
`ValueError`) — never reached on well-formed frames. -/
def on_ble_data (s : FramerState) (data : List Char) :
    Option (FramerState × Option (List Char)) :=
  match s.frameState with
  | .waitingHeader =>
    let fb := s.frameBuffer ++ data
    if (findSub msgHeaderTag fb).isSome && (findSub ['|'] fb).isSome then
      match findSub msgHeaderTag fb with
      | some headerStart =>
        match findSubFrom ['|'] headerStart fb with
        | some headerEnd =>
          match parseDecimal ((fb.drop (headerStart + 4)).take (headerEnd - (headerStart + 4))) with
          | some n => some (⟨.receivingPayload, n, fb.drop (headerEnd + 1), fb⟩, none)
          | none => none
        | none => none
      | none => none
    else
      some (⟨.waitingHeader, s.expectedPayloadLength, s.payloadBuffer, fb⟩, none)
  | .receivingPayload =>
    let pb := s.payloadBuffer ++ data
    if s.expectedPayloadLength ≤ pb.length then
      some (⟨.waitingHeader, s.expectedPayloadLength, [], []⟩,
        some (pb.take s.expectedPayloadLength))
    else
      some (⟨.receivingPayload, s.expectedPayloadLength, pb, s.frameBuffer⟩, none)

/-- Feed a list of chunks through `on_ble_data` in order, collecting
every payload handed to the dispatcher. -/
def feedFramer (s : FramerState) : List (List Char) → Option (FramerState × List (List Char))
  | [] => some (s, [])
  | d :: ds =>
    match on_ble_data s d with
    | none => none
    | some (s1, out) =>
      match feedFramer s1 ds with
      | none => none
      | some (s2, outs) => some (s2, out.toList ++ outs)

/-- The byte sequence `MSG:<digits>|<payload>`. -/
def msgBytes (digits payload : List Char) : List Char :=
  msgHeaderTag ++ digits ++ '|' :: payload

/-- C2 counterexample: the complete well-formed frame `MSG:1|x`
(length field `1`, one-byte payload `x`) fed as a single chunk is NOT
delivered: the header-parsing branch moves the payload bytes into the
payload buffer but the completeness check only runs on a subsequent
chunk, so the dispatcher receives the payload zero times — not exactly
once as claimed. -/
theorem framer_single_chunk_zero_deliveries :
    ("MSG:1|x").data = msgBytes ['1'] ['x'] ∧
      parseDecimal ['1'] = some 1 ∧ (['x'] : List Char).length = 1 ∧
      (feedFramer initFramer [("MSG:1|x").data]).map Prod.snd = some [] := by
  decide

/-! ### Substring-search lemmas for the framer proof -/

theorem isPrefixOf_append_self (p r : List Char) : p.isPrefixOf (p ++ r) = true := by
  induction p with
  | nil => simp [List.isPrefixOf]
  | cons a as ih => simp [List.isPrefixOf, ih]

theorem findSub_cons_of_isPrefixOf {pat : List Char} {c : Char} {rest : List Char}
    (h : pat.isPrefixOf (c :: rest) = true) : findSub pat (c :: rest) = some 0 := by
  simp [findSub, h]

theorem findSub_single_none {c : Char} {l : List Char} (h : c ∉ l) :
    findSub [c] l = none := by
  induction l with
  | nil => rfl
  | cons x xs ih =>
    have hcx : c ≠ x := fun he => h (he ▸ List.mem_cons_self x xs)
    have hxs : c ∉ xs := fun he => h (List.mem_cons_of_mem x he)
    have hpre : ([c].isPrefixOf (x :: xs)) = false := by
      simp [List.isPrefixOf]
      exact fun he => hcx he
    rw [findSub, hpre, if_neg (by simp), ih hxs]
    rfl

theorem findSub_single_append {c : Char} {l₁ : List Char} (l₂ : List Char)
    (h : c ∉ l₁) : findSub [c] (l₁ ++ c :: l₂) = some l₁.length := by
  induction l₁ with
  | nil =>
    apply findSub_cons_of_isPrefixOf
    simp [List.isPrefixOf]
  | cons x xs ih =>
    have hcx : c ≠ x := fun he => h (he ▸ List.mem_cons_self x xs)
    have hxs : c ∉ xs := fun he => h (List.mem_cons_of_mem x he)
    have hpre : ([c].isPrefixOf (x :: (xs ++ c :: l₂))) = false := by
      simp [List.isPrefixOf]
      exact fun he => hcx he
    rw [List.cons_append, findSub, hpre, if_neg (by simp), ih hxs]
    rfl

theorem parseDecimal_digits {s : List Char} {n : Nat} (h : parseDecimal s = some n) :
    ∀ c ∈ s, c.isDigit = true := by
  unfold parseDecimal at h
  by_cases hc : (!s.isEmpty && s.all (·.isDigit)) = true
  · have := (Bool.and_eq_true _ _).mp hc
    exact List.all_eq_true.mp this.2
  · rw [if_neg hc] at h
    exact absurd h (by simp)

/-! ### `on_ble_data` single-step characterizations -/

theorem on_ble_data_waiting_noPipe (e : Nat) (pb fb c : List Char)
    (h : findSub ['|'] (fb ++ c) = none) :
    on_ble_data ⟨.waitingHeader, e, pb, fb⟩ c =
      some (⟨.waitingHeader, e, pb, fb ++ c⟩, none) := by
  unfold on_ble_data
  simp [h]

theorem on_ble_data_waiting_parse (e n : Nat) (pb fb c D t : List Char)
    (hfb : fb ++ c = msgHeaderTag ++ D ++ '|' :: t)
    (hD : parseDecimal D = some n) :
    on_ble_data ⟨.waitingHeader, e, pb, fb⟩ c =
      some (⟨.receivingPayload, n, t, fb ++ c⟩, none) := by
  have hdig := parseDecimal_digits hD
  have hpipe : ('|' : Char) ∉ msgHeaderTag ++ D := by
    intro hmem
    rcases List.mem_append.mp hmem with h1 | h1
    · simp [msgHeaderTag] at h1
    · exact absurd (hdig _ h1) (by decide)
  have hlen4 : (msgHeaderTag ++ D : List Char).length = D.length + 4 := by
    simp only [List.length_append, msgHeaderTag, List.length_cons, List.length_nil]
    omega
  have hfind_pipe : findSub ['|'] (fb ++ c) = some (D.length + 4) := by
    have hassoc : fb ++ c = (msgHeaderTag ++ D) ++ '|' :: t := by rw [hfb]
    rw [hassoc, findSub_single_append t hpipe, hlen4]
  have hfind_tag : findSub msgHeaderTag (fb ++ c) = some 0 := by
    have hsplit : fb ++ c = 'M' :: 'S' :: 'G' :: ':' :: (D ++ '|' :: t) := by
      rw [hfb]; simp [msgHeaderTag]
    rw [hsplit]
    apply findSub_cons_of_isPrefixOf
    simp [msgHeaderTag, List.isPrefixOf]
  have hdrop4 : (fb ++ c).drop 4 = D ++ '|' :: t := by
    have h2 : fb ++ c = msgHeaderTag ++ (D ++ '|' :: t) := by rw [hfb]; simp
    have h4 : (msgHeaderTag : List Char).length = 4 := by simp [msgHeaderTag]
    calc (fb ++ c).drop 4 = (msgHeaderTag ++ (D ++ '|' :: t)).drop msgHeaderTag.length := by
          rw [h2, h4]
      _ = D ++ '|' :: t := List.drop_left _ _
  have htake : (D ++ '|' :: t).take D.length = D := List.take_left D ('|' :: t)
  have hdropH : (fb ++ c).drop (D.length + 4 + 1) = t := by
    have hsplit : fb ++ c = (msgHeaderTag ++ D ++ ['|']) ++ t := by rw [hfb]; simp
    have hlen : (msgHeaderTag ++ D ++ ['|'] : List Char).length = D.length + 4 + 1 := by
      simp only [List.length_append, msgHeaderTag, List.length_cons, List.length_nil]
      omega
    calc (fb ++ c).drop (D.length + 4 + 1)
        = ((msgHeaderTag ++ D ++ ['|']) ++ t).drop (msgHeaderTag ++ D ++ ['|'] : List Char).length := by
          rw [hsplit, hlen]
      _ = t := List.drop_left _ _
  have hfrom : findSubFrom ['|'] 0 (fb ++ c) = some (D.length + 4) := by
    rw [findSubFrom, List.drop_zero, hfind_pipe]
    simp
  simp only [on_ble_data]
  rw [hfind_tag, hfind_pipe]
  simp only [Option.isSome_some, Bool.and_self, if_true]
  rw [hfrom]
  simp only [Nat.zero_add]
  have harith : D.length + 4 - 4 = D.length := by omega
  rw [hdrop4, harith, htake, hD, hdropH]

theorem on_ble_data_receiving_full (n : Nat) (pb fb c : List Char)
    (h : n ≤ (pb ++ c).length) :
    on_ble_data ⟨.receivingPayload, n, pb, fb⟩ c =
      some (⟨.waitingHeader, n, [], []⟩, some ((pb ++ c).take n)) := by
  simp only [on_ble_data]
  rw [if_pos h]

theorem on_ble_data_receiving_partial (n : Nat) (pb fb c : List Char)
    (h : ¬ n ≤ (pb ++ c).length) :
    on_ble_data ⟨.receivingPayload, n, pb, fb⟩ c =
      some (⟨.receivingPayload, n, pb ++ c, fb⟩, none) := by
  simp only [on_ble_data]
  rw [if_neg h]

/-! ### Feeding a whole chunk sequence through the framer -/

theorem feedFramer_empties (e : Nat) :
    ∀ (cs : List (List Char)), (∀ x ∈ cs, x = []) →
      feedFramer ⟨.waitingHeader, e, [], []⟩ cs =
        some (⟨.waitingHeader, e, [], []⟩, []) := by
  intro cs
  induction cs with
  | nil => intro _; rfl
  | cons c cs ih =>
    intro h
    have hc : c = [] := h c (List.mem_cons_self c cs)
    subst hc
    have hstep : on_ble_data ⟨.waitingHeader, e, [], []⟩ [] =
        some (⟨.waitingHeader, e, [], []⟩, none) := by
      apply on_ble_data_waiting_noPipe
      have : ('|' : Char) ∉ ([] ++ [] : List Char) := by simp
      exact findSub_single_none this
    simp only [feedFramer, hstep, ih (fun x hx => h x (List.mem_cons_of_mem _ hx)),
      Option.toList_none, List.nil_append]

theorem feedFramer_receiving (payload : List Char) (n : Nat) (hn : payload.length = n) :
    ∀ (cs : List (List Char)) (m : Nat) (fb0 : List Char), m ≤ n →
      cs.flatten = payload.drop m →
      ∃ sf, feedFramer ⟨.receivingPayload, n, payload.take m, fb0⟩ (cs ++ [[]]) =
        some (sf, [payload]) := by
  intro cs
  induction cs with
  | nil =>
    intro m fb0 hm hflat
    have hm' : m = n := by
      have hl := congrArg List.length hflat
      simp only [List.flatten_nil, List.length_nil, List.length_drop, hn] at hl
      omega
    have htk : payload.take m = payload := by
      rw [hm', ← hn]
      exact List.take_length payload
    have htkn : payload.take n = payload := by
      rw [← hn]
      exact List.take_length payload
    have hlen : n ≤ (payload.take m ++ ([] : List Char)).length := by
      simp [htk, hn]
    have hstep := on_ble_data_receiving_full n (payload.take m) fb0 [] hlen
    refine ⟨⟨.waitingHeader, n, [], []⟩, ?_⟩
    simp only [List.nil_append, feedFramer, hstep]
    simp [htk, htkn]
  | cons c cs ih =>
    intro m fb0 hm hflat
    rw [List.flatten_cons] at hflat
    have hclen : c.length ≤ payload.length - m := by
      have hl := congrArg List.length hflat
      simp only [List.length_append, List.length_drop] at hl
      omega
    have hm' : m + c.length ≤ n := by omega
    have hc : c = (payload.drop m).take c.length := by
      conv_lhs => rw [← List.take_left c cs.flatten]
      rw [hflat]
    have hcs : cs.flatten = payload.drop (m + c.length) := by
      conv_lhs => rw [← List.drop_left c cs.flatten]
      rw [hflat, List.drop_drop]
    have hpb : payload.take m ++ c = payload.take (m + c.length) := by
      rw [List.take_add, ← hc]
    have hplen2 : (payload.take m ++ c).length = m + c.length := by
      rw [hpb, List.length_take]
      omega
    by_cases hfull : n ≤ m + c.length
    · have heq : m + c.length = n := le_antisymm hm' hfull
      have hstep := on_ble_data_receiving_full n (payload.take m) fb0 c
        (by rw [hplen2]; omega)
      have htkn : payload.take n = payload := by rw [← hn]; exact List.take_length payload
      have hout : (payload.take m ++ c).take n = payload := by
        rw [hpb, heq, htkn, htkn]
      have hcsnil : cs.flatten = [] := by
        rw [hcs, heq, ← hn]
        exact List.drop_length payload
      have hempties : ∀ x ∈ cs ++ [[]], x = ([] : List Char) := by
        intro x hx
        rcases List.mem_append.mp hx with hx | hx
        · exact (List.flatten_eq_nil_iff.mp hcsnil) x hx
        · simpa using hx
      refine ⟨⟨.waitingHeader, n, [], []⟩, ?_⟩
      simp only [List.cons_append, feedFramer, hstep]
      simp only [hout, Option.toList_some, List.singleton_append, List.append_eq]
      rw [feedFramer_empties n (cs ++ [[]]) hempties]
    · have hstep := on_ble_data_receiving_partial n (payload.take m) fb0 c
        (by rw [hplen2]; omega)
      rcases ih (m + c.length) fb0 hm' hcs with ⟨sf, hsf⟩
      refine ⟨sf, ?_⟩
      simp only [List.cons_append, feedFramer, hstep, hpb, List.append_eq]
      rw [hsf]
      simp

theorem feedFramer_waiting (D payload : List Char) (n : Nat)
    (hD : parseDecimal D = some n) (hlen : payload.length = n) :
    ∀ (cs : List (List Char)) (k e : Nat) (pb : List Char),
      k < D.length + 5 →
      cs.flatten = (msgBytes D payload).drop k →
      ∃ sf, feedFramer ⟨.waitingHeader, e, pb, (msgBytes D payload).take k⟩ (cs ++ [[]]) =
        some (sf, [payload]) := by
  have hS : (msgBytes D payload).length = D.length + 5 + n := by
    simp only [msgBytes, msgHeaderTag, List.length_append, List.length_cons,
      List.length_nil, hlen]
    omega
  intro cs
  induction cs with
  | nil =>
    intro k e pb hk hflat
    exfalso
    have hl := congrArg List.length hflat
    simp only [List.flatten_nil, List.length_nil, List.length_drop, hS] at hl
    omega
  | cons c cs ih =>
    intro k e pb hk hflat
    rw [List.flatten_cons] at hflat
    have hclen : c.length ≤ (msgBytes D payload).length - k := by
      have hl := congrArg List.length hflat
      simp only [List.length_append, List.length_drop] at hl
      omega
    have hc : c = ((msgBytes D payload).drop k).take c.length := by
      conv_lhs => rw [← List.take_left c cs.flatten]
      rw [hflat]
    have hcs : cs.flatten = (msgBytes D payload).drop (k + c.length) := by
      conv_lhs => rw [← List.drop_left c cs.flatten]
      rw [hflat, List.drop_drop]
    have hfbc : (msgBytes D payload).take k ++ c =
        (msgBytes D payload).take (k + c.length) := by
      rw [List.take_add, ← hc]
    by_cases hk' : k + c.length < D.length + 5
    · have hnopipe : findSub ['|'] ((msgBytes D payload).take k ++ c) = none := by
        rw [hfbc]
        apply findSub_single_none
        intro hmem
        have hsub : (msgBytes D payload).take (k + c.length) =
            (msgHeaderTag ++ D).take (k + c.length) := by
          have h1 : msgBytes D payload = (msgHeaderTag ++ D) ++ '|' :: payload := by
            simp [msgBytes]
          rw [h1, List.take_append_of_le_length]
          simp only [List.length_append, msgHeaderTag, List.length_cons, List.length_nil]
          omega
        rw [hsub] at hmem
        have hmem' : ('|' : Char) ∈ msgHeaderTag ++ D := List.take_subset _ _ hmem
        rcases List.mem_append.mp hmem' with h1 | h1
        · simp [msgHeaderTag] at h1
        · exact absurd (parseDecimal_digits hD _ h1) (by decide)
      have hstep := on_ble_data_waiting_noPipe e pb ((msgBytes D payload).take k) c hnopipe
      rcases ih (k + c.length) e pb hk' hcs with ⟨sf, hsf⟩
      refine ⟨sf, ?_⟩
      simp only [List.cons_append, feedFramer, hstep, hfbc, List.append_eq]
      rw [hsf]
      simp
    · have hk2 : D.length + 5 ≤ k + c.length := by omega
      have hkS : k + c.length ≤ (msgBytes D payload).length := by omega
      have h1 : msgBytes D payload = (msgHeaderTag ++ D ++ ['|']) ++ payload := by
        simp [msgBytes]
      have h2 : (msgHeaderTag ++ D ++ ['|'] : List Char).length = D.length + 5 := by
        simp only [List.length_append, msgHeaderTag, List.length_cons, List.length_nil]
        omega
      have hsplit : (msgBytes D payload).take (k + c.length) =
          msgHeaderTag ++ D ++ '|' :: payload.take (k + c.length - (D.length + 5)) := by
        rw [h1, List.take_append_eq_append_take,
          List.take_of_length_le (by rw [h2]; omega), h2]
        simp
      have hstep := on_ble_data_waiting_parse e n pb ((msgBytes D payload).take k) c D
        (payload.take (k + c.length - (D.length + 5)))
        (by rw [hfbc, hsplit]) hD
      have hm : k + c.length - (D.length + 5) ≤ n := by omega
      have hcs' : cs.flatten = payload.drop (k + c.length - (D.length + 5)) := by
        have h3 : (msgHeaderTag ++ D ++ ['|'] : List Char).drop (k + c.length) = [] :=
          List.drop_eq_nil_of_le (by rw [h2]; omega)
        rw [hcs, h1, List.drop_append_eq_append_drop, h3, h2, List.nil_append]
      rcases feedFramer_receiving payload n hlen cs (k + c.length - (D.length + 5))
        ((msgBytes D payload).take k ++ c) hm hcs' with ⟨sf, hsf⟩
      refine ⟨sf, ?_⟩
      simp only [List.cons_append, feedFramer, hstep, List.append_eq]
      rw [hsf]
      simp

/-- C2 (amended): for every payload and every partition of
`MSG:<digits>|<payload>` into chunks, feeding the chunks and then one
further (possibly empty) chunk delivers exactly the payload, exactly
once, to the dispatcher.  (The extra chunk is forced by the
counterexample `framer_single_chunk_zero_deliveries`: the completeness
check runs only on chunks processed in the `receiving_payload` state, so
a frame whose final byte arrives in the same chunk as its header is
delivered only when the next chunk — even an empty read — comes in.) -/
theorem framer_delivers_exactly_once (D payload : List Char) (n : Nat)
    (hD : parseDecimal D = some n) (hlen : payload.length = n)
    (chunks : List (List Char)) (hflat : chunks.flatten = msgBytes D payload) :
    ∃ sf, feedFramer initFramer (chunks ++ [[]]) = some (sf, [payload]) := by
  have h5 : (0 : Nat) < D.length + 5 := by omega
  have h0 := feedFramer_waiting D payload n hD hlen chunks 0 0 [] h5
    (by rw [List.drop_zero]; exact hflat)
  exact h0

theorem framer_delivers_exactly_once_witness :
    ∃ sf, feedFramer initFramer ([("MSG:1|").data, ['x']] ++ [[]]) =
      some (sf, [['x']]) :=
  framer_delivers_exactly_once ['1'] ['x'] 1 (by decide) (by decide)
    [("MSG:1|").data, ['x']] (by decide)

/-! ## DeviceScanCoordinator (BLE_PROTOCOL_V1.md: `start_device_scan`,
`check_scan_progress`, `handle_device_scan`, `finish_device_scan`) -/

/-- RSSI threshold: the string `"all"` or a decimal value. -/
inductive RssiThreshold
  | all
  | value (v : Int)
deriving DecidableEq

/-- A record of `self.discovered_devices` (the Python dict); the
source's `"type"` key is called `kind` here (`type` is a Lean
keyword). -/
structure DeviceInfo where
  id : String
  rssi : Int
  battery : Int
  kind : String
  mac : String
deriving DecidableEq

/-- The hub-object fields touched by the scan code, the BLE advertising
flag and the ESP-NOW message buffer. -/
structure HubState where
  scan_in_progress : Bool
  scan_start_time : Int
  scan_rssi_threshold : RssiThreshold
  discovered_devices : List DeviceInfo
  ble_paused : Bool
  scan_ping_counter : Nat
  last_ping_time : Int
  ble_advertising : Bool
  espnow_msg_buffer : List String
deriving DecidableEq

/-- Scan configuration attributes of the hub (defaults 3, 1s, 5s). -/
structure HubConfig where
  scan_redundancy_count : Nat
  scan_redundancy_delay : Int
  device_scan_timeout : Int
deriving DecidableEq

def defaultHubConfig : HubConfig := ⟨3, 1, 5⟩

def scanBusyWarning : String := "WARNING: Scan already in progress!"

/-- `start_device_scan(rssi_threshold)` entered at wall-clock time
`now`; result: new hub state and the printed log lines (interpolated
counters elided from the log text).  When a scan is already in progress
the function prints a warning and returns immediately: its body contains
no `raise`, and no state field is written on that path. -/
def start_device_scan (s : HubState) (rssi_threshold : RssiThreshold) (now : Int) :
    HubState × List String :=
  if s.scan_in_progress then
    (s, [scanBusyWarning])
  else
    ({ s with
        ble_advertising := false
        espnow_msg_buffer := []
        scan_in_progress := true
        scan_start_time := now
        scan_rssi_threshold := rssi_threshold
        discovered_devices := []
        ble_paused := true
        scan_ping_counter := 1
        last_ping_time := now },
      ["Stopping BLE advertising to free radio for ESP-NOW...", "Sent PING 1"])

/-- The `data.get(...)` keys of a `deviceScan` ESP-NOW response. -/
structure ScanData where
  value : Option String
  battery : Option Int
  kind : Option String
deriving DecidableEq

/-- One discovery response: the sender MAC (as hex string), the RSSI
read from the ESP-NOW peers table for that MAC, and the payload. -/
structure ScanResponse where
  mac : String
  rssi : Int
  data : ScanData
deriving DecidableEq

/-- The Python loop over `self.discovered_devices` finding the record
with this MAC, followed by the conditional update: the first record with
`mac` keeps the stronger (strictly greater wins) RSSI, all other records
unchanged. -/
def updateFirstByMac (mac : String) (rssi : Int) : List DeviceInfo → List DeviceInfo
  | [] => []
  | d :: ds =>
    if d.mac = mac then
      (if rssi > d.rssi then { d with rssi := rssi } else d) :: ds
    else d :: updateFirstByMac mac rssi ds

/-- The `device_info` dict built for a newly discovered device. -/
def newDeviceInfo (mac : String) (rssi : Int) (data : ScanData) : DeviceInfo :=
  { id := data.value.getD ("M-" ++ mac.take 6)
    rssi := rssi
    battery := data.battery.getD (-1)
    kind := data.kind.getD "Unknown"
    mac := mac }

/-- `handle_device_scan(mac, data)`: ignored unless a scan is in
progress; otherwise deduplicate by MAC — update the existing record
keeping the strongest RSSI, or append a new record. -/
def handle_device_scan (s : HubState) (mac : String) (rssi : Int) (data : ScanData) :
    HubState :=
  if s.scan_in_progress = false then s
  else if s.discovered_devices.any (fun d => d.mac == mac) then
    { s with discovered_devices := updateFirstByMac mac rssi s.discovered_devices }
  else
    { s with discovered_devices :=
        s.discovered_devices ++ [newDeviceInfo mac rssi data] }

/-- Process a sequence of discovery responses in order. -/
def processResponses (s : HubState) (rs : List ScanResponse) : HubState :=
  rs.foldl (fun s r => handle_device_scan s r.mac r.rssi r.data) s

/-- `finish_device_scan()`: stop scanning, resume BLE advertising,
apply the RSSI threshold filter (`"all"` = keep everything) and send the
device list (the send itself is an event of `check_scan_progress`). -/
def finish_device_scan (s : HubState) : HubState :=
  { s with
      scan_in_progress := false
      ble_paused := false
      ble_advertising := true
      discovered_devices :=
        match s.scan_rssi_threshold with
        | .all => s.discovered_devices
        | .value v => s.discovered_devices.filter (fun d => v ≤ d.rssi) }

inductive ScanEvent
  | pingSent
  | finished
  | watchdogFired
deriving DecidableEq

/-- `check_scan_progress(current_time)`: the redundant-PING block, the
primary-timeout check (`elapsed > device_scan_timeout` →
`finish_device_scan`), and the watchdog
(`elapsed > device_scan_timeout * 2` → force reset: scanning flag
cleared, BLE un-paused, ESP-NOW buffer cleared, advertising resumed).
The event list records which of the three actions ran in this call. -/
def check_scan_progress (cfg : HubConfig) (s : HubState) (now : Int) :
    HubState × List ScanEvent :=
  let elapsed := now - s.scan_start_time
  let pingCond := s.scan_ping_counter < cfg.scan_redundancy_count ∧
    now - s.last_ping_time ≥ cfg.scan_redundancy_delay
  let s1 := if pingCond then
      { s with scan_ping_counter := s.scan_ping_counter + 1, last_ping_time := now }
    else s
  let e1 : List ScanEvent := if pingCond then [.pingSent] else []
  let s2 := if elapsed > cfg.device_scan_timeout then finish_device_scan s1 else s1
  let e2 : List ScanEvent := if elapsed > cfg.device_scan_timeout then [.finished] else []
  let s3 := if elapsed > cfg.device_scan_timeout * 2 then
      { s2 with
          scan_in_progress := false
          ble_paused := false
          espnow_msg_buffer := []
          ble_advertising := true }
    else s2
  let e3 : List ScanEvent := if elapsed > cfg.device_scan_timeout * 2 then
      [.watchdogFired]
    else []
  (s3, e1 ++ e2 ++ e3)

/-- The scan-management step of the hub main loop:
`if hub.scan_in_progress: hub.check_scan_progress(current_time)`. -/
def hubTick (cfg : HubConfig) (s : HubState) (now : Int) : HubState × List ScanEvent :=
  if s.scan_in_progress then check_scan_progress cfg s now else (s, [])

/-- Run the main-loop scan step at each successive time of `ts`,
collecting each tick's events. -/
def hubRun (cfg : HubConfig) (s : HubState) : List Int → List (Int × List ScanEvent)
  | [] => []
  | t :: ts => (t, (hubTick cfg s t).2) :: hubRun cfg (hubTick cfg s t).1 ts

/-- A hub state mid-scan: scanning since time 0, two pings sent, last
ping at time 3, BLE paused. -/
def busyScanState : HubState :=
  ⟨true, 0, .all, [], true, 2, 3, false, []⟩

/-- C5 counterexample: calling `start_device_scan` while a scan is in
progress does not raise anything — the body of `start_device_scan`
contains no `raise` and the call completes normally, returning the
completely unchanged state (in particular `scan_ping_counter` is still
`2`) with only a warning line printed.  The claimed `ScanBusyError` does
not exist. -/
theorem startScan_busy_counterexample :
    busyScanState.scan_in_progress = true ∧
      start_device_scan busyScanState .all 10 = (busyScanState, [scanBusyWarning]) ∧
      (start_device_scan busyScanState .all 10).1.scan_ping_counter = 2 := by
  refine ⟨rfl, ?_, rfl⟩
  rfl

/-- C5 (amended): `start_device_scan` called while `scan_in_progress`
rejects the request by printing a warning and returning immediately —
no error is raised (the embedding is a total function and the source
body raises nothing) and the active session is untouched: every field,
including `scan_ping_counter`, keeps its value. -/
theorem startScan_busy_noop (s : HubState) (thr : RssiThreshold) (now : Int)
    (h : s.scan_in_progress = true) :
    start_device_scan s thr now = (s, [scanBusyWarning]) := by
  simp [start_device_scan, h]

theorem startScan_busy_noop_witness :
    start_device_scan busyScanState .all 10 = (busyScanState, [scanBusyWarning]) :=
  startScan_busy_noop busyScanState .all 10 rfl

/-! ### Watchdog temporal behaviour (C4) -/

theorem check_scan_progress_quiet (cfg : HubConfig) (s : HubState) (now : Int)
    (hT : 0 ≤ cfg.device_scan_timeout)
    (h : ¬ now - s.scan_start_time > cfg.device_scan_timeout) :
    (check_scan_progress cfg s now).1.scan_in_progress = s.scan_in_progress ∧
      (check_scan_progress cfg s now).1.scan_start_time = s.scan_start_time ∧
      ScanEvent.finished ∉ (check_scan_progress cfg s now).2 ∧
      ScanEvent.watchdogFired ∉ (check_scan_progress cfg s now).2 := by
  have h2 : ¬ now - s.scan_start_time > cfg.device_scan_timeout * 2 := by omega
  by_cases hp : (s.scan_ping_counter < cfg.scan_redundancy_count ∧
      now - s.last_ping_time ≥ cfg.scan_redundancy_delay)
  · simp [check_scan_progress, h, h2, hp]
  · simp [check_scan_progress, h, h2, hp]

theorem check_scan_progress_fires (cfg : HubConfig) (s : HubState) (now : Int)
    (h : now - s.scan_start_time > cfg.device_scan_timeout) :
    (check_scan_progress cfg s now).1.scan_in_progress = false ∧
      ScanEvent.finished ∈ (check_scan_progress cfg s now).2 ∧
      (ScanEvent.watchdogFired ∈ (check_scan_progress cfg s now).2 ↔
        now - s.scan_start_time > cfg.device_scan_timeout * 2) := by
  by_cases hw : now - s.scan_start_time > cfg.device_scan_timeout * 2 <;>
    by_cases hp : (s.scan_ping_counter < cfg.scan_redundancy_count ∧
        now - s.last_ping_time ≥ cfg.scan_redundancy_delay) <;>
    simp [check_scan_progress, h, hw, hp, finish_device_scan]

theorem hubRun_noScan (cfg : HubConfig) :
    ∀ (ts : List Int) (s : HubState), s.scan_in_progress = false →
      hubRun cfg s ts = ts.map (fun t => (t, ([] : List ScanEvent))) := by
  intro ts
  induction ts with
  | nil => intro s _; rfl
  | cons t ts ih =>
    intro s h
    have htick : hubTick cfg s t = (s, []) := by simp [hubTick, h]
    show (t, (hubTick cfg s t).2) :: hubRun cfg (hubTick cfg s t).1 ts = _
    rw [htick, ih s h]
    rfl

/-- C4: over any sequence of main-loop ticks on an active scan, (a) if
the watchdog fires at some tick, that tick lies strictly beyond
`2 × device_scan_timeout` after scan start and `finish_device_scan` has
not run at any tick at or before the `2 × timeout` mark (every tick at
which finish runs also lies beyond it); (b) if the scan completes
normally via `finish_device_scan` at a tick within
`2 × device_scan_timeout` of scan start, the watchdog never fires —
the main loop stops calling `check_scan_progress` once
`scan_in_progress` is cleared. -/
theorem scan_watchdog_spec (cfg : HubConfig) (hT : 0 ≤ cfg.device_scan_timeout) :
    ∀ (ts : List Int) (s : HubState), s.scan_in_progress = true →
      ((∀ t evs, (t, evs) ∈ hubRun cfg s ts → ScanEvent.watchdogFired ∈ evs →
        t - s.scan_start_time > cfg.device_scan_timeout * 2 ∧
        ∀ u evs', (u, evs') ∈ hubRun cfg s ts → ScanEvent.finished ∈ evs' →
          u - s.scan_start_time > cfg.device_scan_timeout * 2) ∧
      (∀ t evs, (t, evs) ∈ hubRun cfg s ts → ScanEvent.finished ∈ evs →
        t - s.scan_start_time ≤ cfg.device_scan_timeout * 2 →
        ∀ u evs', (u, evs') ∈ hubRun cfg s ts → ScanEvent.watchdogFired ∉ evs')) := by
  intro ts
  induction ts with
  | nil =>
    intro s _
    constructor
    · intro t evs hmem
      exact absurd hmem (List.not_mem_nil _)
    · intro t evs hmem
      exact absurd hmem (List.not_mem_nil _)
  | cons t0 ts ih =>
    intro s hs
    have htick : hubTick cfg s t0 = check_scan_progress cfg s t0 := by
      simp [hubTick, hs]
    have hrun : hubRun cfg s (t0 :: ts) =
        (t0, (check_scan_progress cfg s t0).2) ::
          hubRun cfg (check_scan_progress cfg s t0).1 ts := by
      show (t0, (hubTick cfg s t0).2) :: hubRun cfg (hubTick cfg s t0).1 ts = _
      rw [htick]
    by_cases hE : t0 - s.scan_start_time > cfg.device_scan_timeout
    · obtain ⟨hsp, hfin, hwiff⟩ := check_scan_progress_fires cfg s t0 hE
      have htail : hubRun cfg (check_scan_progress cfg s t0).1 ts =
          ts.map (fun u => (u, [])) := hubRun_noScan cfg ts _ hsp
      rw [htail] at hrun
      constructor
      · intro t evs hmem hw
        rw [hrun] at hmem
        rcases List.mem_cons.mp hmem with hh | htl
        · rw [Prod.mk.injEq] at hh
          obtain ⟨ht, hevs⟩ := hh
          subst ht; subst hevs
          have h2T := hwiff.mp hw
          refine ⟨h2T, ?_⟩
          intro u evs' hmem' hfin'
          rw [hrun] at hmem'
          rcases List.mem_cons.mp hmem' with hh' | htl'
          · rw [Prod.mk.injEq] at hh'
            obtain ⟨hu, _⟩ := hh'
            subst hu
            exact h2T
          · obtain ⟨u', _, heq⟩ := List.mem_map.mp htl'
            rw [Prod.mk.injEq] at heq
            obtain ⟨_, hevs'⟩ := heq
            rw [← hevs'] at hfin'
            exact absurd hfin' (List.not_mem_nil _)
        · obtain ⟨u', _, heq⟩ := List.mem_map.mp htl
          rw [Prod.mk.injEq] at heq
          obtain ⟨_, hevs⟩ := heq
          rw [← hevs] at hw
          exact absurd hw (List.not_mem_nil _)
      · intro t evs hmem hfin' hle u evs' hmem'
        rw [hrun] at hmem hmem'
        rcases List.mem_cons.mp hmem with hh | htl
        · rw [Prod.mk.injEq] at hh
          obtain ⟨ht, hevs⟩ := hh
          subst ht; subst hevs
          rcases List.mem_cons.mp hmem' with hh' | htl'
          · rw [Prod.mk.injEq] at hh'
            obtain ⟨hu, hevs'⟩ := hh'
            subst hu; subst hevs'
            intro hw
            exact absurd hle (by have := hwiff.mp hw; omega)
          · obtain ⟨u', _, heq⟩ := List.mem_map.mp htl'
            rw [Prod.mk.injEq] at heq
            obtain ⟨_, hevs'⟩ := heq
            rw [← hevs']
            exact List.not_mem_nil _
        · obtain ⟨u', _, heq⟩ := List.mem_map.mp htl
          rw [Prod.mk.injEq] at heq
          obtain ⟨_, hevs⟩ := heq
          rw [← hevs] at hfin'
          exact absurd hfin' (List.not_mem_nil _)
    · obtain ⟨hsp, hst, hnfin, hnw⟩ := check_scan_progress_quiet cfg s t0 hT hE
      have hs1 : (check_scan_progress cfg s t0).1.scan_in_progress = true := by
        rw [hsp, hs]
      obtain ⟨IH1, IH2⟩ := ih (check_scan_progress cfg s t0).1 hs1
      rw [hst] at IH1 IH2
      constructor
      · intro t evs hmem hw
        rw [hrun] at hmem
        rcases List.mem_cons.mp hmem with hh | htl
        · rw [Prod.mk.injEq] at hh
          obtain ⟨_, hevs⟩ := hh
          rw [← hevs] at hnw
          exact absurd hw hnw
        · obtain ⟨hgt, hforall⟩ := IH1 t evs htl hw
          refine ⟨hgt, ?_⟩
          intro u evs' hmem' hfin'
          rw [hrun] at hmem'
          rcases List.mem_cons.mp hmem' with hh' | htl'
          · rw [Prod.mk.injEq] at hh'
            obtain ⟨_, hevs'⟩ := hh'
            rw [← hevs'] at hnfin
            exact absurd hfin' hnfin
          · exact hforall u evs' htl' hfin'
      · intro t evs hmem hfin' hle u evs' hmem'
        rw [hrun] at hmem hmem'
        rcases List.mem_cons.mp hmem with hh | htl
        · rw [Prod.mk.injEq] at hh
          obtain ⟨_, hevs⟩ := hh
          rw [← hevs] at hnfin
          exact absurd hfin' hnfin
        · rcases List.mem_cons.mp hmem' with hh' | htl'
          · rw [Prod.mk.injEq] at hh'
            obtain ⟨_, hevs'⟩ := hh'
            rw [hevs']
            exact hnw
          · exact IH2 t evs htl hfin' hle u evs' htl'

theorem scan_watchdog_spec_witness :
    ScanEvent.watchdogFired ∉ [ScanEvent.pingSent, ScanEvent.finished] :=
  (scan_watchdog_spec defaultHubConfig (by decide) [6] busyScanState rfl).2
    6 [ScanEvent.pingSent, ScanEvent.finished] (by decide) (by decide) (by decide)
    6 [ScanEvent.pingSent, ScanEvent.finished] (by decide)

/-! ### Deduplication and strongest-RSSI retention (C3) -/

/-- The first record for `mac` in the device list (there is at most one
— see the counting lemmas), as its RSSI. -/
def recRssi (s : HubState) (mac : String) : Option Int :=
  (s.discovered_devices.find? (fun d => d.mac == mac)).map (·.rssi)

/-- The update rule of `handle_device_scan`: keep the stronger RSSI
(the incoming one wins only when strictly greater). -/
def maxStep (a r : Int) : Int := if r > a then r else a

def foldMaxOpt (o : Option Int) (l : List Int) : Option Int :=
  l.foldl (fun acc r =>
    match acc with
    | none => some r
    | some a => some (maxStep a r)) o

/-- The RSSIs of the responses carrying this MAC, in arrival order. -/
def rssisFor (mac : String) (rs : List ScanResponse) : List Int :=
  (rs.filter (fun r => r.mac == mac)).map (fun r => r.rssi)

theorem updateFirstByMac_macs (mac : String) (rssi : Int) :
    ∀ l : List DeviceInfo,
      (updateFirstByMac mac rssi l).map (·.mac) = l.map (·.mac) := by
  intro l
  induction l with
  | nil => rfl
  | cons d ds ih =>
    by_cases hd : d.mac = mac
    · by_cases hr : rssi > d.rssi <;> simp [updateFirstByMac, hd, hr]
    · simp [updateFirstByMac, hd, ih]

theorem countP_updateFirstByMac (mac : String) (rssi : Int) (m : String)
    (l : List DeviceInfo) :
    (updateFirstByMac mac rssi l).countP (fun d => d.mac == m) =
      l.countP (fun d => d.mac == m) := by
  have h1 := List.countP_map (fun x => x == m) (fun d : DeviceInfo => d.mac)
    (updateFirstByMac mac rssi l)
  have h2 := List.countP_map (fun x => x == m) (fun d : DeviceInfo => d.mac) l
  rw [updateFirstByMac_macs] at h1
  exact h1.symm.trans h2

theorem any_updateFirstByMac (mac : String) (rssi : Int) (m : String)
    (l : List DeviceInfo) :
    (updateFirstByMac mac rssi l).any (fun d => d.mac == m) =
      l.any (fun d => d.mac == m) := by
  have hiff : ((updateFirstByMac mac rssi l).any (fun d => d.mac == m) = true) ↔
      (l.any (fun d => d.mac == m) = true) := by
    rw [List.any_eq_true, List.any_eq_true]
    constructor
    · rintro ⟨d, hd, hp⟩
      have : 0 < (updateFirstByMac mac rssi l).countP (fun d => d.mac == m) :=
        List.countP_pos.mpr ⟨d, hd, hp⟩
      rw [countP_updateFirstByMac] at this
      exact List.countP_pos.mp this
    · rintro ⟨d, hd, hp⟩
      have : 0 < l.countP (fun d => d.mac == m) := List.countP_pos.mpr ⟨d, hd, hp⟩
      rw [← countP_updateFirstByMac mac rssi m] at this
      exact List.countP_pos.mp this
  cases hb : (updateFirstByMac mac rssi l).any (fun d => d.mac == m) <;>
    cases hb' : l.any (fun d => d.mac == m) <;>
    simp_all

theorem find?_updateFirstByMac (mac : String) (rssi : Int) (m : String) :
    ∀ l : List DeviceInfo,
      (updateFirstByMac mac rssi l).find? (fun d => d.mac == m) =
        if mac = m then
          (l.find? (fun d => d.mac == m)).map
            (fun d => if rssi > d.rssi then { d with rssi := rssi } else d)
        else l.find? (fun d => d.mac == m) := by
  intro l
  induction l with
  | nil => by_cases h : mac = m <;> simp [updateFirstByMac, h]
  | cons d ds ih =>
    by_cases hd : d.mac = mac
    · rw [updateFirstByMac, if_pos hd]
      by_cases hm : mac = m
      · subst hm
        have hpd : (d.mac == mac) = true := by simp [hd]
        have hpd' : ((if rssi > d.rssi then { d with rssi := rssi } else d).mac == mac) =
            true := by
          by_cases hr : rssi > d.rssi <;> simp [hr, hd]
        simp [List.find?, hpd, hpd']
      · have hdm : ¬ d.mac = m := fun h => hm (hd.symm.trans h)
        have hdmb : (d.mac == m) = false := by simp [hdm]
        have hupd : ((if rssi > d.rssi then { d with rssi := rssi } else d).mac == m) =
            false := by
          by_cases hr : rssi > d.rssi <;> simp [hr, hdm]
        simp [List.find?, hupd, hdmb, hm]
    · rw [updateFirstByMac, if_neg hd]
      by_cases hdm : d.mac = m
      · have hm : ¬ mac = m := fun h => hd (by rw [hdm, h])
        have hdmb : (d.mac == m) = true := by simp [hdm]
        simp [List.find?, hdmb, hm]
      · have hdmb : (d.mac == m) = false := by simp [hdm]
        by_cases hm : mac = m
        · subst hm
          simp [List.find?, hdmb, ih]
        · simp [List.find?, hdmb, hm, ih]

theorem handle_device_scan_scanFlag (s : HubState) (mac : String) (rssi : Int)
    (data : ScanData) :
    (handle_device_scan s mac rssi data).scan_in_progress = s.scan_in_progress := by
  unfold handle_device_scan
  by_cases h1 : s.scan_in_progress = false
  · simp [h1]
  · by_cases h2 : s.discovered_devices.any (fun d => d.mac == mac) <;> simp [h1, h2]

theorem recRssi_step (s : HubState) (r : ScanResponse) (m : String)
    (hs : s.scan_in_progress = true) :
    recRssi (handle_device_scan s r.mac r.rssi r.data) m =
      if r.mac = m then
        match recRssi s m with
        | none => some r.rssi
        | some a => some (maxStep a r.rssi)
      else recRssi s m := by
  have hns : ¬ s.scan_in_progress = false := by simp [hs]
  unfold handle_device_scan
  rw [if_neg hns]
  by_cases hex : s.discovered_devices.any (fun d => d.mac == r.mac)
  · rw [if_pos hex]
    unfold recRssi
    simp only
    rw [find?_updateFirstByMac]
    by_cases hm : r.mac = m
    · rw [if_pos hm, if_pos hm]
      obtain ⟨d0, hd0mem, hd0p⟩ := List.any_eq_true.mp hex
      have hd0mac : d0.mac = r.mac := by simpa using hd0p
      have hfind : s.discovered_devices.find? (fun d => d.mac == m) ≠ none := by
        intro hnone
        have := List.find?_eq_none.mp hnone d0 hd0mem
        rw [hm] at hd0mac
        simp [hd0mac] at this
      obtain ⟨d1, hd1⟩ := Option.ne_none_iff_exists'.mp hfind
      rw [hd1]
      by_cases hr : r.rssi > d1.rssi <;> simp [maxStep, hr]
    · rw [if_neg hm, if_neg hm]
  · rw [if_neg hex]
    unfold recRssi
    rw [List.find?_append]
    by_cases hm : r.mac = m
    · have hnone : s.discovered_devices.find? (fun d => d.mac == m) = none := by
        rw [List.find?_eq_none]
        intro d hd hp
        have : d.mac = m := by simpa using hp
        rw [← hm] at this
        exact (List.any_eq_false.mp (Bool.not_eq_true _ ▸ hex) d hd) (by simp [this])
      rw [if_pos hm, hnone]
      have hmb : (r.mac == m) = true := by simp [hm]
      simp [List.find?, newDeviceInfo, hmb]
    · rw [if_neg hm]
      have hmb : (r.mac == m) = false := by simp [hm]
      cases hfind : s.discovered_devices.find? (fun d => d.mac == m) <;>
        simp [List.find?, newDeviceInfo, hmb, hfind]

theorem recRssi_processResponses :
    ∀ (rs : List ScanResponse) (s : HubState) (m : String),
      s.scan_in_progress = true →
      recRssi (processResponses s rs) m = foldMaxOpt (recRssi s m) (rssisFor m rs) := by
  intro rs
  induction rs with
  | nil => intro s m _; rfl
  | cons r rs ih =>
    intro s m hs
    have hstep : processResponses s (r :: rs) =
        processResponses (handle_device_scan s r.mac r.rssi r.data) rs := rfl
    have hs' : (handle_device_scan s r.mac r.rssi r.data).scan_in_progress = true := by
      rw [handle_device_scan_scanFlag, hs]
    rw [hstep, ih _ m hs', recRssi_step s r m hs]
    by_cases hm : r.mac = m
    · have hmb : (r.mac == m) = true := by simp [hm]
      rw [if_pos hm]
      have hfilter : rssisFor m (r :: rs) = r.rssi :: rssisFor m rs := by
        simp [rssisFor, List.filter_cons, hmb]
      rw [hfilter]
      cases hrec : recRssi s m <;> rfl
    · have hmb : (r.mac == m) = false := by simp [hm]
      rw [if_neg hm]
      have hfilter : rssisFor m (r :: rs) = rssisFor m rs := by
        simp [rssisFor, List.filter_cons, hmb]
      rw [hfilter]

theorem foldMaxOpt_spec :
    ∀ (l : List Int) (o : Option Int) (v : Int), foldMaxOpt o l = some v →
      (o = some v ∨ v ∈ l) ∧ (∀ x ∈ l, x ≤ v) ∧ (∀ a, o = some a → a ≤ v) := by
  intro l
  induction l with
  | nil =>
    intro o v h
    refine ⟨Or.inl h, by simp, ?_⟩
    intro a ha
    rw [ha] at h
    cases h
    exact le_refl _
  | cons x l ih =>
    intro o v h
    cases o with
    | none =>
      have h' : foldMaxOpt (some x) l = some v := h
      obtain ⟨hmem, hbound, hinit⟩ := ih (some x) v h'
      have hxv : x ≤ v := hinit x rfl
      refine ⟨?_, ?_, ?_⟩
      · rcases hmem with hx | hl
        · cases hx
          exact Or.inr (List.mem_cons_self _ _)
        · exact Or.inr (List.mem_cons_of_mem _ hl)
      · intro y hy
        rcases List.mem_cons.mp hy with hy | hy
        · rw [hy]; exact hxv
        · exact hbound y hy
      · intro a ha
        cases ha
    | some a =>
      have h' : foldMaxOpt (some (maxStep a x)) l = some v := h
      obtain ⟨hmem, hbound, hinit⟩ := ih (some (maxStep a x)) v h'
      have hmv : maxStep a x ≤ v := hinit (maxStep a x) rfl
      have hax : a ≤ maxStep a x := by
        unfold maxStep
        by_cases hr : x > a
        · rw [if_pos hr]; omega
        · rw [if_neg hr]
      have hxx : x ≤ maxStep a x := by
        unfold maxStep
        by_cases hr : x > a
        · rw [if_pos hr]
        · rw [if_neg hr]; omega
      refine ⟨?_, ?_, ?_⟩
      · rcases hmem with hx | hl
        · have : maxStep a x = v := by injection hx
          unfold maxStep at this
          by_cases hr : x > a
          · rw [if_pos hr] at this
            exact Or.inr (this ▸ List.mem_cons_self _ _)
          · rw [if_neg hr] at this
            exact Or.inl (by rw [this])
        · exact Or.inr (List.mem_cons_of_mem _ hl)
      · intro y hy
        rcases List.mem_cons.mp hy with hy | hy
        · rw [hy]; exact le_trans hxx hmv
        · exact hbound y hy
      · intro b hb
        have : b = a := by injection hb.symm
        rw [this]
        exact le_trans hax hmv

theorem countP_handle_device_scan (s : HubState) (r : ScanResponse) (m : String)
    (hs : s.scan_in_progress = true) :
    (handle_device_scan s r.mac r.rssi r.data).discovered_devices.countP
        (fun d => d.mac == m) =
      s.discovered_devices.countP (fun d => d.mac == m) +
        (if r.mac = m ∧
            s.discovered_devices.any (fun d => d.mac == r.mac) = false then 1 else 0) := by
  have hns : ¬ s.scan_in_progress = false := by simp [hs]
  unfold handle_device_scan
  rw [if_neg hns]
  by_cases hex : s.discovered_devices.any (fun d => d.mac == r.mac)
  · rw [if_pos hex]
    have hcond : ¬ (r.mac = m ∧
        s.discovered_devices.any (fun d => d.mac == r.mac) = false) := by
      rintro ⟨_, hfalse⟩
      rw [hex] at hfalse
      cases hfalse
    simp only [if_neg hcond, Nat.add_zero]
    exact countP_updateFirstByMac r.mac r.rssi m s.discovered_devices
  · rw [if_neg hex]
    simp only [List.countP_append]
    by_cases hm : r.mac = m
    · have hmb : ((newDeviceInfo r.mac r.rssi r.data).mac == m) = true := by
        simp [newDeviceInfo, hm]
      have hcond : r.mac = m ∧
          s.discovered_devices.any (fun d => d.mac == r.mac) = false :=
        ⟨hm, by simpa using hex⟩
      have hone : List.countP (fun d => d.mac == m)
          [newDeviceInfo r.mac r.rssi r.data] = 1 := by
        simp [List.countP_cons, hmb]
      rw [hone, if_pos hcond]
    · have hmb : ((newDeviceInfo r.mac r.rssi r.data).mac == m) = false := by
        simp [newDeviceInfo, hm]
      have hcond : ¬ (r.mac = m ∧
          s.discovered_devices.any (fun d => d.mac == r.mac) = false) := by
        rintro ⟨h1, _⟩
        exact hm h1
      have hzero : List.countP (fun d => d.mac == m)
          [newDeviceInfo r.mac r.rssi r.data] = 0 := by
        simp [List.countP_cons, hmb]
      rw [hzero, if_neg hcond]

theorem any_handle_device_scan (s : HubState) (r : ScanResponse) (m : String)
    (hs : s.scan_in_progress = true) :
    (handle_device_scan s r.mac r.rssi r.data).discovered_devices.any
        (fun d => d.mac == m) =
      (s.discovered_devices.any (fun d => d.mac == m) || (r.mac == m)) := by
  have hns : ¬ s.scan_in_progress = false := by simp [hs]
  unfold handle_device_scan
  rw [if_neg hns]
  by_cases hex : s.discovered_devices.any (fun d => d.mac == r.mac)
  · rw [if_pos hex]
    simp only [any_updateFirstByMac]
    by_cases hm : r.mac = m
    · have : s.discovered_devices.any (fun d => d.mac == m) = true := by
        rw [← hm]; exact hex
      simp [this]
    · have hmb : (r.mac == m) = false := by simp [hm]
      simp [hmb]
  · rw [if_neg hex]
    rw [List.any_append]
    have : (List.any [newDeviceInfo r.mac r.rssi r.data] fun d => d.mac == m) =
        (r.mac == m) := by
      simp [newDeviceInfo]
    rw [this]

theorem any_processResponses :
    ∀ (rs : List ScanResponse) (s : HubState) (m : String),
      s.scan_in_progress = true →
      (processResponses s rs).discovered_devices.any (fun d => d.mac == m) =
        (s.discovered_devices.any (fun d => d.mac == m) ||
          rs.any (fun r => r.mac == m)) := by
  intro rs
  induction rs with
  | nil => intro s m _; simp [processResponses]
  | cons r rs ih =>
    intro s m hs
    have hs' : (handle_device_scan s r.mac r.rssi r.data).scan_in_progress = true := by
      rw [handle_device_scan_scanFlag, hs]
    show (processResponses (handle_device_scan s r.mac r.rssi r.data) rs).discovered_devices.any
        (fun d => d.mac == m) = _
    rw [ih _ m hs', any_handle_device_scan s r m hs]
    simp [List.any_cons, Bool.or_assoc, Bool.or_comm, Bool.or_left_comm]

theorem countP_processResponses_le_one :
    ∀ (rs : List ScanResponse) (s : HubState) (m : String),
      s.scan_in_progress = true →
      s.discovered_devices.countP (fun d => d.mac == m) ≤ 1 →
      (processResponses s rs).discovered_devices.countP (fun d => d.mac == m) ≤ 1 := by
  intro rs
  induction rs with
  | nil => intro s m _ h; exact h
  | cons r rs ih =>
    intro s m hs hc
    have hs' : (handle_device_scan s r.mac r.rssi r.data).scan_in_progress = true := by
      rw [handle_device_scan_scanFlag, hs]
    refine ih _ m hs' ?_
    rw [countP_handle_device_scan s r m hs]
    by_cases hcond : (r.mac = m ∧
        s.discovered_devices.any (fun d => d.mac == r.mac) = false)
    · obtain ⟨hm, hany⟩ := hcond
      have hzero : s.discovered_devices.countP (fun d => d.mac == m) = 0 := by
        rw [List.countP_eq_zero]
        intro d hd hp
        have hdm : d.mac = m := by simpa using hp
        have hdr : d.mac = r.mac := by rw [hdm, hm]
        have hpd : (d.mac == r.mac) = true := by rw [hdr]; exact beq_self_eq_true r.mac
        have hcontra : s.discovered_devices.any (fun x => x.mac == r.mac) = true :=
          List.any_eq_true.mpr ⟨d, hd, hpd⟩
        rw [hany] at hcontra
        cases hcontra
      rw [hzero, if_pos ⟨hm, hany⟩]
    · rw [if_neg hcond]
      omega

theorem find?_of_mem_of_countP_le_one :
    ∀ (l : List DeviceInfo) (d : DeviceInfo), d ∈ l →
      l.countP (fun x => x.mac == d.mac) ≤ 1 →
      l.find? (fun x => x.mac == d.mac) = some d := by
  intro l
  induction l with
  | nil =>
    intro d hd
    exact absurd hd (List.not_mem_nil _)
  | cons x xs ih =>
    intro d hd hc
    by_cases hx : (x.mac == d.mac) = true
    · rcases List.mem_cons.mp hd with hdx | hdxs
      · subst hdx
        simp [List.find?]
      · exfalso
        have h1 : 0 < xs.countP (fun y => y.mac == d.mac) :=
          List.countP_pos.mpr ⟨d, hdxs, by simp⟩
        have h2 := List.countP_cons (fun y => y.mac == d.mac) x xs
        rw [if_pos hx] at h2
        omega
    · have hxb : (x.mac == d.mac) = false := by simpa using hx
      rcases List.mem_cons.mp hd with hdx | hdxs
      · exfalso
        rw [hdx] at hx
        simp at hx
      · have h2 := List.countP_cons (fun y => y.mac == d.mac) x xs
        rw [if_neg hx] at h2
        have := ih d hdxs (by omega)
        simp [List.find?, hxb, this]

/-- C3: starting from the fresh session created at scan start (empty
device list, scanning), processing any sequence of discovery responses
leaves exactly one record per responding MAC address — the device
identifier `handle_device_scan` deduplicates by — and that record's RSSI
is the numerically greatest RSSI seen for that MAC across the whole
sequence. -/
theorem handle_device_scan_dedup_max (rs : List ScanResponse) (s : HubState)
    (hs : s.scan_in_progress = true) (hdev : s.discovered_devices = [])
    (m : String) :
    ((processResponses s rs).discovered_devices.countP (fun d => d.mac == m) =
      if rs.any (fun r => r.mac == m) = true then 1 else 0) ∧
    (∀ d ∈ (processResponses s rs).discovered_devices,
      d.rssi ∈ rssisFor d.mac rs ∧ ∀ x ∈ rssisFor d.mac rs, x ≤ d.rssi) := by
  constructor
  · have hany := any_processResponses rs s m hs
    rw [hdev] at hany
    simp only [List.any_nil, Bool.false_or] at hany
    have hle := countP_processResponses_le_one rs s m hs (by rw [hdev]; simp)
    by_cases ha : rs.any (fun r => r.mac == m) = true
    · rw [ha] at hany
      have hpos : 0 < (processResponses s rs).discovered_devices.countP
          (fun d => d.mac == m) := by
        obtain ⟨d, hdmem, hdp⟩ := List.any_eq_true.mp hany
        exact List.countP_pos.mpr ⟨d, hdmem, hdp⟩
      rw [if_pos ha]
      omega
    · have ha' : rs.any (fun r => r.mac == m) = false := by simpa using ha
      rw [ha'] at hany
      rw [if_neg ha]
      rw [List.countP_eq_zero]
      intro d hdmem hdp
      have hc : (processResponses s rs).discovered_devices.any
          (fun d => d.mac == m) = true := List.any_eq_true.mpr ⟨d, hdmem, hdp⟩
      rw [hany] at hc
      cases hc
  · intro d hdmem
    have hle := countP_processResponses_le_one rs s d.mac hs (by rw [hdev]; simp)
    have hfind := find?_of_mem_of_countP_le_one _ d hdmem hle
    have hrec : recRssi (processResponses s rs) d.mac = some d.rssi := by
      unfold recRssi
      rw [hfind]
      rfl
    rw [recRssi_processResponses rs s d.mac hs] at hrec
    have hrecs : recRssi s d.mac = none := by
      unfold recRssi
      rw [hdev]
      rfl
    rw [hrecs] at hrec
    obtain ⟨hmem, hbound, _⟩ := foldMaxOpt_spec _ none d.rssi hrec
    refine ⟨?_, hbound⟩
    rcases hmem with h | h
    · exact absurd h (by simp)
    · exact h

/-- The spec's example sequence `(A,-70), (B,-40), (A,-50)`. -/
def exampleResponses : List ScanResponse :=
  [⟨"A", -70, ⟨some "A", none, none⟩⟩,
   ⟨"B", -40, ⟨some "B", none, none⟩⟩,
   ⟨"A", -50, ⟨some "A", none, none⟩⟩]

/-- The session state right after `start_device_scan` on an idle hub. -/
def startedScanState : HubState :=
  (start_device_scan ⟨false, 0, .all, [], false, 0, 0, true, []⟩ .all 0).1

theorem handle_device_scan_dedup_max_witness :
    ((processResponses startedScanState exampleResponses).discovered_devices.map
        (fun d => (d.mac, d.rssi)) = [("A", -50), ("B", -40)]) ∧
      ((processResponses startedScanState exampleResponses).discovered_devices.countP
          (fun d => d.mac == "A") = 1) := by
  constructor
  · decide
  · have h := (handle_device_scan_dedup_max exampleResponses startedScanState
      rfl rfl "A").1
    rw [h]
    decide

/-! ## ConnectionSupervisor operation lock (C6) -/

/-- Modelled from the spec: the repository's `webSerial.py` /
`ConnectionSupervisor` implementation is not under `src/` — only the
root-cause analysis describing it and spec §4.6 are.  Per §4.6 the
supervisor owns an operation lock `busy : Bool` with
`currentOperation : string|null`, plus the state of whatever operation
is in progress (abstracted as `opState : σ`). -/
structure ConnectionSupervisor (σ : Type) where
  busy : Bool
  currentOperation : Option String
  opState : σ

/-- Modelled from the spec: `OperationBusyError(currentOperation)`. -/
inductive OperationBusyError
  | mk (currentOperation : Option String)
deriving DecidableEq

/-- Modelled from the spec: acquiring the lock fails immediately with
`OperationBusyError(currentOperation)` when `busy` is set. -/
def acquireExclusive {σ : Type} (sup : ConnectionSupervisor σ) (opName : String) :
    Except OperationBusyError (ConnectionSupervisor σ) :=
  if sup.busy then .error (.mk sup.currentOperation)
  else .ok { sup with busy := true, currentOperation := some opName }

/-- Modelled from the spec: an exclusive operation (REPL entry, upload,
identity query, reset) acquires the lock, runs its body on the
operation state, and releases the lock. -/
def runExclusive {σ : Type} (sup : ConnectionSupervisor σ) (opName : String)
    (body : σ → σ) : Except OperationBusyError (ConnectionSupervisor σ) :=
  match acquireExclusive sup opName with
  | .error e => .error e
  | .ok locked =>
    .ok { locked with
            busy := false
            currentOperation := none
            opState := body locked.opState }

/-- C6: every exclusive operation attempted while the supervisor's
`busy` flag is set fails immediately with `OperationBusyError` naming
the current operation; since the attempt returns before running any
body, the in-progress operation's state (`opState`, and the whole
supervisor value) is left untouched. -/
theorem exclusive_op_busy_rejected {σ : Type} (sup : ConnectionSupervisor σ)
    (opName : String) (body : σ → σ) (h : sup.busy = true) :
    runExclusive sup opName body = .error (.mk sup.currentOperation) := by
  simp [runExclusive, acquireExclusive, h]

theorem exclusive_op_busy_rejected_witness :
    runExclusive (⟨true, some "repl-entry", (0 : Nat)⟩ : ConnectionSupervisor Nat)
        "upload" id =
      .error (.mk (some "repl-entry")) :=
  exclusive_op_busy_rejected ⟨true, some "repl-entry", 0⟩ "upload" id rfl

/-! ## `get_board_info` identity query (C8)
From `webSerial.py` as quoted in the function-comparison document:
sends CTRL-D (soft reset) and parses the boot banner for a line
containing `"MicroPython"`. -/

def mpMarker : List Char := "MicroPython".data

/-- Python `str.split('\n')`. -/
def splitOnChar (sep : Char) : List Char → List (List Char)
  | [] => [[]]
  | c :: rest =>
    if c = sep then [] :: splitOnChar sep rest
    else
      match splitOnChar sep rest with
      | [] => [[c]]
      | line :: rest' => (c :: line) :: rest'

/-- Python `str.strip()` restricted to the whitespace characters that
occur on this wire (space, tab, CR, LF). -/
def isSpaceChar (c : Char) : Bool :=
  c = ' ' || c = '\t' || c = '\n' || c = '\r'

def stripChars (s : List Char) : List Char :=
  ((s.dropWhile isSpaceChar).reverse.dropWhile isSpaceChar).reverse

/-- The read loop of `get_board_info`: accumulate chunks (at most ten
reads), stopping early once `"MicroPython"` occurs in the accumulated
text. -/
def gbiRead (info : List Char) : List (List Char) → List Char
  | [] => info
  | c :: cs =>
    if containsSub (info ++ c) mpMarker then info ++ c
    else gbiRead (info ++ c) cs

/-- `get_board_info(timeout_ms)`: CTRL-D (soft reset) is written, then
the response chunks are accumulated; if the accumulated text contains
`"MicroPython"`, the first line containing it is returned stripped;
otherwise the function raises `Unexpected board response` (`.error`
carrying the text).  The wall-clock timeout raise is not modelled: in
the runs considered the data arrives within the read budget. -/
def get_board_info (chunks : List (List Char)) : Except (List Char) (List Char) :=
  let info := gbiRead [] (chunks.take 10)
  if containsSub info mpMarker then
    match (splitOnChar '\n' info).find? (fun line => containsSub line mpMarker) with
    | some line => .ok (stripChars line)
    | none => .error info
  else .error info

/-- Response to CTRL-D with the board at the normal REPL prompt: soft
reboot, version banner, fresh prompt. -/
def normalReplBanner : List (List Char) :=
  [("MPY: soft reboot\r\n").data,
   ("MicroPython v1.20.0 on 2024-01-01; ESP32-C6 with ESP32C6\r\n>>> ").data]

/-- Response to CTRL-D with the board left in raw REPL by a prior
operation — the console log quoted in the root-cause analysis:
`OK\r\nMPY: soft reboot\r\nraw REPL; CTRL-B to exit\r\n>` — no version
line is ever printed. -/
def rawModeBanner : List (List Char) :=
  [("OK\r\nMPY: soft reboot\r\n").data,
   ("raw REPL; CTRL-B to exit\r\n>").data]

/-- C8: `get_board_info` drives the identity query through a soft reset
plus boot-banner parse (not through paste mode).  Querying the same
board twice without an intervening reset does not return the same
identity string: with the board at the normal prompt the call returns
the version line, but with the board left in raw REPL by a prior
operation the very same call raises `Unexpected board response` —
the result depends on prior interpreter state. -/
theorem get_board_info_soft_reset_divergence :
    get_board_info normalReplBanner =
      .ok (("MicroPython v1.20.0 on 2024-01-01; ESP32-C6 with ESP32C6").data) ∧
      (get_board_info rawModeBanner).isOk = false := by
  constructor
  · rfl
  · rfl
